import Mathlib

/-
  Verification development for the RapidExtractor artifact-collection tool.
  Shallow embedding of the Python sources: paths are segment lists, file
  contents are byte lists, filesystem faults are explicit constructors, and
  each extractor module becomes a pure Lean function over those models.
-/

namespace RapidExtractor

/-- A filesystem path, as its list of segments (os.path.join appends a segment). -/
abbrev Path := List String

/-- Serialization of a path, Windows separator. -/
def pathStr (p : Path) : String := String.intercalate "\\" p

/-- os.path.relpath p base, in the case base is an ancestor of p
    (the only case the embedded modules produce). -/
def relpath (p base : Path) : Path := p.drop base.length

/- ===================== MD5 (hashlib.md5) ===================== -/

def M32 : Nat := 4294967296

def wadd (a b : Nat) : Nat := (a + b) % M32

def wnot (a : Nat) : Nat := 4294967295 - a

def rotl (x s : Nat) : Nat := (x * 2 ^ s + x / 2 ^ (32 - s)) % M32

def md5K : List Nat :=
  [0xd76aa478, 0xe8c7b756, 0x242070db, 0xc1bdceee,
   0xf57c0faf, 0x4787c62a, 0xa8304613, 0xfd469501,
   0x698098d8, 0x8b44f7af, 0xffff5bb1, 0x895cd7be,
   0x6b901122, 0xfd987193, 0xa679438e, 0x49b40821,
   0xf61e2562, 0xc040b340, 0x265e5a51, 0xe9b6c7aa,
   0xd62f105d, 0x02441453, 0xd8a1e681, 0xe7d3fbc8,
   0x21e1cde6, 0xc33707d6, 0xf4d50d87, 0x455a14ed,
   0xa9e3e905, 0xfcefa3f8, 0x676f02d9, 0x8d2a4c8a,
   0xfffa3942, 0x8771f681, 0x6d9d6122, 0xfde5380c,
   0xa4beea44, 0x4bdecfa9, 0xf6bb4b60, 0xbebfbc70,
   0x289b7ec6, 0xeaa127fa, 0xd4ef3085, 0x04881d05,
   0xd9d4d039, 0xe6db99e5, 0x1fa27cf8, 0xc4ac5665,
   0xf4292244, 0x432aff97, 0xab9423a7, 0xfc93a039,
   0x655b59c3, 0x8f0ccc92, 0xffeff47d, 0x85845dd1,
   0x6fa87e4f, 0xfe2ce6e0, 0xa3014314, 0x4e0811a1,
   0xf7537e82, 0xbd3af235, 0x2ad7d2bb, 0xeb86d391]

def md5S : List Nat :=
  [7, 12, 17, 22, 7, 12, 17, 22, 7, 12, 17, 22, 7, 12, 17, 22,
   5, 9, 14, 20, 5, 9, 14, 20, 5, 9, 14, 20, 5, 9, 14, 20,
   4, 11, 16, 23, 4, 11, 16, 23, 4, 11, 16, 23, 4, 11, 16, 23,
   6, 10, 15, 21, 6, 10, 15, 21, 6, 10, 15, 21, 6, 10, 15, 21]

structure MD5State where
  a : Nat
  b : Nat
  c : Nat
  d : Nat
deriving DecidableEq

def md5Init : MD5State := ⟨0x67452301, 0xefcdab89, 0x98badcfe, 0x10325476⟩

def md5F (b c d : Nat) : Nat := Nat.lor (Nat.land b c) (Nat.land (wnot b) d)

def md5G (b c d : Nat) : Nat := Nat.lor (Nat.land d b) (Nat.land (wnot d) c)

def md5H (b c d : Nat) : Nat := Nat.xor b (Nat.xor c d)

def md5I (b c d : Nat) : Nat := Nat.xor c (Nat.lor b (wnot d))

def md5Op (m : List Nat) (st : MD5State) (i : Nat) : MD5State :=
  let fg : Nat × Nat :=
    if i < 16 then (md5F st.b st.c st.d, i % 16)
    else if i < 32 then (md5G st.b st.c st.d, (5 * i + 1) % 16)
    else if i < 48 then (md5H st.b st.c st.d, (3 * i + 5) % 16)
    else (md5I st.b st.c st.d, (7 * i) % 16)
  let v := wadd (wadd (wadd fg.1 st.a) (md5K.getD i 0)) (m.getD fg.2 0)
  ⟨st.d, wadd st.b (rotl v (md5S.getD i 0)), st.b, st.c⟩

def md5Block (st : MD5State) (m : List Nat) : MD5State :=
  let r := (List.range 64).foldl (md5Op m) st
  ⟨wadd st.a r.a, wadd st.b r.b, wadd st.c r.c, wadd st.d r.d⟩

def leWord (b : List Nat) (j : Nat) : Nat :=
  b.getD (4 * j) 0 + 256 * b.getD (4 * j + 1) 0 +
    65536 * b.getD (4 * j + 2) 0 + 16777216 * b.getD (4 * j + 3) 0

def blockWords (b : List Nat) : List Nat := (List.range 16).map (leWord b)

def wordBytes (w : Nat) : List Nat := [w % 256, w / 256 % 256, w / 65536 % 256, w / 16777216 % 256]

def le64Bytes (n : Nat) : List Nat := (List.range 8).map (fun i => n / 256 ^ i % 256)

def md5Pad (msg : List Nat) : List Nat :=
  msg ++ [128] ++ List.replicate ((119 - msg.length % 64) % 64) 0 ++
    le64Bytes (8 * msg.length % 2 ^ 64)

/-- Splitting a byte list into consecutive chunks of at most n bytes
    (fuel-indexed so the definition is structural, hence kernel-evaluable). -/
def chunksOfAux (n : Nat) : Nat → List Nat → List (List Nat)
  | _, [] => []
  | 0, l => [l]
  | fuel + 1, x :: xs => (x :: xs).take n :: chunksOfAux n fuel ((x :: xs).drop n)

def chunksOf (n : Nat) (l : List Nat) : List (List Nat) := chunksOfAux n l.length l

def md5Bytes (msg : List Nat) : List Nat :=
  let st := ((chunksOf 64 (md5Pad msg)).map blockWords).foldl md5Block md5Init
  wordBytes st.a ++ wordBytes st.b ++ wordBytes st.c ++ wordBytes st.d

def hexDigits : List Char := "0123456789abcdef".data

def hexChar (n : Nat) : Char := hexDigits.getD n '0'

def byteHex (b : Nat) : List Char := [hexChar (b / 16), hexChar (b % 16)]

/-- hashlib.md5(data).hexdigest(): the lowercase hex MD5 of a byte string. -/
def md5hex (msg : List Nat) : String := ((md5Bytes msg).flatMap byteHex).asString

/- ===================== calculate_md5 ===================== -/

/-- The I/O faults the spec names for the digest engine. -/
inductive IOFault where
  | permissionFault
  | vanishedFile
  | deviceFault
deriving DecidableEq

/-- hashlib's incremental update: the stream state is the bytes folded so far. -/
def hashlib_update (acc chunk : List Nat) : List Nat := acc ++ chunk

/-- calculate_md5 (identical in bet_extractor.py, prefetch_extractor.py,
    teamviewer_extractor.py, browser_history_extractor.py): opens the file,
    folds 4096-byte chunks into the hash, returns the hex digest; any raised
    fault is caught and None is returned. A file is modeled as its byte
    content, or the fault raised when reading it. -/
def calculate_md5 (file : Except IOFault (List Nat)) : Option String :=
  match file with
  | .error _ => none
  | .ok content => some (md5hex ((chunksOf 4096 content).foldl hashlib_update []))

/- ===================== basic lemmas ===================== -/

theorem length_asString (l : List Char) : (List.asString l).length = l.length := rfl

theorem data_asString (l : List Char) : (List.asString l).data = l := rfl

theorem foldl_hashlib_update (L : List (List Nat)) (acc : List Nat) :
    L.foldl hashlib_update acc = acc ++ L.flatten := by
  induction L generalizing acc with
  | nil => simp
  | cons x xs ih => simp [hashlib_update, ih, List.append_assoc]

theorem chunksOfAux_flatten (n : Nat) (hn : 1 ≤ n) :
    ∀ fuel l, l.length ≤ fuel → (chunksOfAux n fuel l).flatten = l := by
  intro fuel
  induction fuel with
  | zero =>
    intro l hl
    have : l = [] := List.eq_nil_of_length_eq_zero (Nat.le_zero.mp hl)
    subst this
    simp [chunksOfAux]
  | succ k ih =>
    intro l hl
    match l with
    | [] => simp [chunksOfAux]
    | x :: xs =>
      have hrec : ((x :: xs).drop n).length ≤ k := by
        simp only [List.length_drop]
        have hx : (x :: xs).length = xs.length + 1 := by simp
        omega
      simp only [chunksOfAux, List.flatten_cons]
      rw [ih _ hrec, List.take_append_drop]

theorem chunksOf_flatten (n : Nat) (hn : 1 ≤ n) (l : List Nat) :
    (chunksOf n l).flatten = l :=
  chunksOfAux_flatten n hn l.length l (Nat.le_refl _)

theorem chunksOfAux_length_le (n : Nat) (hn : 1 ≤ n) :
    ∀ fuel l, l.length ≤ fuel → ∀ c ∈ chunksOfAux n fuel l, c.length ≤ n := by
  intro fuel
  induction fuel with
  | zero =>
    intro l hl c hc
    have : l = [] := List.eq_nil_of_length_eq_zero (Nat.le_zero.mp hl)
    subst this
    simp [chunksOfAux] at hc
  | succ k ih =>
    intro l hl c hc
    match l with
    | [] => simp [chunksOfAux] at hc
    | x :: xs =>
      simp only [chunksOfAux, List.mem_cons] at hc
      rcases hc with rfl | hc
      · exact List.length_take_le n (x :: xs)
      · have hrec : ((x :: xs).drop n).length ≤ k := by
          simp only [List.length_drop]
          have hx : (x :: xs).length = xs.length + 1 := by simp
          omega
        exact ih _ hrec c hc

theorem chunksOf_length_le (n : Nat) (hn : 1 ≤ n) (l : List Nat) :
    ∀ c ∈ chunksOf n l, c.length ≤ n :=
  chunksOfAux_length_le n hn l.length l (Nat.le_refl _)

theorem hexChar_mem (n : Nat) : hexChar n ∈ hexDigits := by
  unfold hexChar
  rcases hg : hexDigits[n]? with _ | c
  · rw [List.getD_eq_getElem?_getD, hg]
    decide
  · rw [List.getD_eq_getElem?_getD, hg]
    simpa using List.getElem?_mem hg

theorem md5Bytes_length (msg : List Nat) : (md5Bytes msg).length = 16 := by
  simp [md5Bytes, wordBytes]

theorem md5hex_length (msg : List Nat) : (md5hex msg).length = 32 := by
  rw [md5hex, length_asString, List.length_flatMap]
  have h2 : (md5Bytes msg).map (List.length ∘ byteHex)
      = List.replicate (md5Bytes msg).length 2 := by
    rw [← List.map_const']
    exact List.map_congr_left (fun b _ => rfl)
  rw [h2, List.sum_replicate, md5Bytes_length, smul_eq_mul]

theorem md5hex_chars (msg : List Nat) : ∀ c ∈ (md5hex msg).data, c ∈ hexDigits := by
  intro c hc
  rw [md5hex, data_asString] at hc
  rcases List.mem_flatMap.mp hc with ⟨b, _, hb⟩
  simp only [byteHex, List.mem_cons, List.not_mem_nil, or_false] at hb
  rcases hb with rfl | rfl
  · exact hexChar_mem _
  · exact hexChar_mem _

set_option maxRecDepth 8000 in
/-- Sanity check against the RFC 1321 test vectors. -/
theorem md5hex_test_vectors :
    md5hex [] = "d41d8cd98f00b204e9800998ecf8427e" ∧
    md5hex [97, 98, 99] = "900150983cd24fb0d6963f7d28e17f72" := by
  constructor <;> decide

/-- C6: for every path (modeled as the file's readable byte content, or the
I/O fault raised when reading it), calculate_md5 either returns the lowercase
hexadecimal content hash obtained by folding the file's bytes in order in
chunks of at most 4096 bytes, or returns the Unavailable sentinel (None)
after any I/O fault; it is total and never propagates an exception. -/
theorem c6_calculate_md5_total_hex :
    (∀ fault : IOFault, calculate_md5 (.error fault) = none)
  ∧ (∀ content : List Nat,
      calculate_md5 (.ok content)
        = some (md5hex ((chunksOf 4096 content).foldl hashlib_update []))
      ∧ (chunksOf 4096 content).foldl hashlib_update [] = content
      ∧ (∀ c ∈ chunksOf 4096 content, c.length ≤ 4096)
      ∧ (md5hex content).length = 32
      ∧ (∀ ch ∈ (md5hex content).data, ch ∈ hexDigits)) := by
  refine ⟨fun fault => rfl, fun content =>
    ⟨rfl, ?_, chunksOf_length_le 4096 (by omega) content,
     md5hex_length content, md5hex_chars content⟩⟩
  rw [foldl_hashlib_update, List.nil_append, chunksOf_flatten 4096 (by omega)]

set_option maxRecDepth 8000 in
theorem c6_witness :
    calculate_md5 (.error .permissionFault) = none
  ∧ calculate_md5 (.ok [97, 98, 99]) = some "900150983cd24fb0d6963f7d28e17f72"
  ∧ [97, 98, 99].length ≤ 4096
  ∧ '9' ∈ hexDigits := by
  have h := c6_calculate_md5_total_hex.2 [97, 98, 99]
  refine ⟨c6_calculate_md5_total_hex.1 .permissionFault, ?_, ?_, ?_⟩
  · rw [h.1, h.2.1, md5hex_test_vectors.2]
  · exact h.2.2.1 [97, 98, 99] (by decide)
  · exact h.2.2.2.2 '9' (by rw [md5hex_test_vectors.2]; decide)

/- ===================== shared collection data model ===================== -/

/-- One manifest data row (a FileRecord), before CSV serialization. -/
structure FileRow where
  name : String
  srcPath : Path
  ctime : Nat
  atime : Nat
  digest : Option String
deriving DecidableEq

/-- csv.writer serialization of a FileRecord: Python's csv module writes
    None as the empty field. -/
def serializeRow (r : FileRow) : List String :=
  [r.name, pathStr r.srcPath, toString r.ctime, toString r.atime, r.digest.getD ""]

/-- The header row each module writes first. -/
def manifestHeader : List String :=
  ["File Name", "File Path", "Creation Date", "Last Access Date", "MD5 Checksum"]

/-- Per-file facts of the modeled source filesystem: the byte content as
    calculate_md5 sees it (None when opening for read raises), whether
    shutil.copy2 of this file succeeds, and the source timestamps. -/
structure FInfo where
  content : Option (List Nat)
  copyOk : Bool
  ctime : Nat
  atime : Nat
deriving DecidableEq

/-- A node of a modeled source tree (os.listdir order is the list order). -/
inductive FsNode where
  | file (name : String) (info : FInfo)
  | dir (name : String) (children : List FsNode)

/-- The digest a module records for a file: calculate_md5 on its content. -/
def digestOf (info : FInfo) : Option String :=
  calculate_md5 (match info.content with
    | some bs => .ok bs
    | none => .error .permissionFault)

/- ===================== installed_programs_extractor ===================== -/

/-- An observable filesystem effect of a module run. -/
inductive Action where
  | mkdirs (p : Path)
  | copyFile (src dst : Path)
  | writeRow (r : List String)
  | digestRead (p : Path)
deriving DecidableEq

def Action.isMkdirs : Action → Bool
  | .mkdirs _ => true
  | _ => false

/-- One entry of os.listdir(src) together with its os.path.isdir status. -/
structure IPEntry where
  name : String
  isDir : Bool
deriving DecidableEq

/-- copy_top_level_directories (installed_programs_extractor.py): filters the
    top-level directories of src and creates one (empty) directory for each at
    dst when it does not already exist; no file is copied, nothing is logged.
    preexisting p models os.path.exists on destination paths. -/
def copy_top_level_directories (src : List IPEntry) (dst : Path)
    (preexisting : Path → Bool) : List Action :=
  let top_level_dirs := (src.filter (fun e => e.isDir)).map (fun e => e.name)
  top_level_dirs.flatMap (fun nm =>
    if preexisting (dst ++ [nm]) then [] else [Action.mkdirs (dst ++ [nm])])

/-- C10: with a fresh destination, the installed-programs operation emits
exactly one directory-creation action per immediate subdirectory of the
source, in order; it never copies file content, writes a manifest row, or
reads a digest, and it creates nothing deeper than one level below dst
(each created directory is left empty, and file entries are ignored). -/
theorem c10_copy_top_level_directories (src : List IPEntry) (dst : Path)
    (preexisting : Path → Bool)
    (hfresh : ∀ nm, preexisting (dst ++ [nm]) = false) :
    copy_top_level_directories src dst preexisting
      = ((src.filter (fun e => e.isDir)).map (fun e => Action.mkdirs (dst ++ [e.name])))
  ∧ (∀ q : Path → Bool, ∀ a ∈ copy_top_level_directories src dst q, a.isMkdirs = true)
  ∧ (∀ q : Path → Bool, ∀ a ∈ copy_top_level_directories src dst q,
      ∃ e ∈ src, e.isDir = true ∧ a = Action.mkdirs (dst ++ [e.name])) := by
  refine ⟨?_, ?_, ?_⟩
  · simp only [copy_top_level_directories, hfresh, if_false]
    rw [List.flatMap_map]
    induction (src.filter (fun e => e.isDir)) with
    | nil => rfl
    | cons x xs ih => simpa [List.flatMap_cons] using ih
  · intro q a ha
    simp only [copy_top_level_directories, List.mem_flatMap, List.mem_map] at ha
    rcases ha with ⟨nm, _, hin⟩
    split at hin
    · simp at hin
    · simp only [List.mem_cons, List.not_mem_nil, or_false] at hin
      subst hin
      rfl
  · intro q a ha
    simp only [copy_top_level_directories, List.mem_flatMap, List.mem_map] at ha
    rcases ha with ⟨nm, ⟨⟨e, he, rfl⟩, hin⟩⟩
    have hd := List.of_mem_filter he
    split at hin
    · simp at hin
    · simp only [List.mem_cons, List.not_mem_nil, or_false] at hin
      subst hin
      exact ⟨e, List.mem_of_mem_filter he, by simpa using hd, rfl⟩

theorem c10_witness :
    copy_top_level_directories
        [⟨"Alpha", true⟩, ⟨"readme.txt", false⟩, ⟨"Beta", true⟩]
        ["D:", "out"] (fun _ => false)
      = [Action.mkdirs ["D:", "out", "Alpha"], Action.mkdirs ["D:", "out", "Beta"]] := by
  have h := (c10_copy_top_level_directories
    [⟨"Alpha", true⟩, ⟨"readme.txt", false⟩, ⟨"Beta", true⟩]
    ["D:", "out"] (fun _ => false) (fun _ => rfl)).1
  rw [h]
  decide

/- ===================== zip_directory (main.py, the Archiver seal) ===================== -/

/-- One file of the working directory, by relative path and content. -/
structure ZFile where
  rel : Path
  content : List Nat
deriving DecidableEq

/-- Filesystem state the Archiver touches: the working directory (None when
    it does not exist) and the archive file (None when not present). -/
structure ZState where
  workDir : Option (List ZFile)
  archive : Option (List ZFile)
deriving DecidableEq

inductive ZEvent where
  | archiveWritten
  | archiveClosed
  | dirRemoved
deriving DecidableEq

structure ZResult where
  state : ZState
  err : Option String
  trace : List ZEvent
deriving DecidableEq

/-- shutil.make_archive: on success writes and closes an archive holding the
    full working tree; on failure raises, leaving the working directory as it
    was (archOk models whether archive creation succeeds, e.g. disk full). -/
def shutil_make_archive (archOk : Bool) (st : ZState) : ZResult :=
  match archOk, st.workDir with
  | true, some fs =>
      { state := { st with archive := some fs }
        err := none
        trace := [.archiveWritten, .archiveClosed] }
  | true, none => { state := st, err := some "directory not found", trace := [] }
  | false, _ => { state := st, err := some "archive creation failed", trace := [] }

/-- shutil.rmtree on the working directory. -/
def shutil_rmtree (st : ZState) : ZState := { st with workDir := none }

/-- zip_directory (main.py): make_archive, then rmtree of the directory.
    A raise from make_archive propagates, so rmtree is never reached on a
    failed archive. -/
def zip_directory (archOk : Bool) (st : ZState) : ZResult :=
  let r := shutil_make_archive archOk st
  match r.err with
  | some e => { state := r.state, err := some e, trace := r.trace }
  | none =>
      { state := shutil_rmtree r.state
        err := none
        trace := r.trace ++ [.dirRemoved] }

/-- C2: sealing a collection directory writes and closes the archive strictly
before the working directory is deleted (the trace is written-closed-removed);
after a successful seal the working directory no longer exists and the archive
holds every file present at call time; and on a failed archive creation no
deletion happens: the working directory is left exactly intact. -/
theorem c2_zip_directory_seal (st : ZState) (fs : List ZFile)
    (hwd : st.workDir = some fs) :
    (zip_directory true st).state.workDir = none
  ∧ (zip_directory true st).state.archive = some fs
  ∧ (zip_directory true st).err = none
  ∧ (zip_directory true st).trace = [.archiveWritten, .archiveClosed, .dirRemoved]
  ∧ (zip_directory false st).state = st
  ∧ (zip_directory false st).err.isSome = true
  ∧ (zip_directory false st).trace.contains ZEvent.dirRemoved = false := by
  refine ⟨?_, ?_, ?_, ?_, ?_, ?_, ?_⟩ <;>
    simp [zip_directory, shutil_make_archive, shutil_rmtree, hwd]

theorem c2_witness :
    (zip_directory true ⟨some [⟨["a.txt"], [1, 2]⟩], none⟩).state
        = ⟨none, some [⟨["a.txt"], [1, 2]⟩]⟩
  ∧ (zip_directory false ⟨some [⟨["a.txt"], [1, 2]⟩], none⟩).state
        = ⟨some [⟨["a.txt"], [1, 2]⟩], none⟩ := by
  have h := c2_zip_directory_seal ⟨some [⟨["a.txt"], [1, 2]⟩], none⟩
    [⟨["a.txt"], [1, 2]⟩] rfl
  exact ⟨by
    have h1 := h.1
    have h2 := h.2.1
    cases hs : (zip_directory true ⟨some [⟨["a.txt"], [1, 2]⟩], none⟩).state with
    | mk w a =>
      rw [hs] at h1 h2
      simp at h1 h2
      rw [h1, h2], h.2.2.2.2.1⟩

/- ===================== bet_extractor ===================== -/

/-- Faults raised by filesystem primitives inside a collection loop. -/
inductive CopyFault where
  | copyRaised
  | listdirRaised
deriving DecidableEq

/-- Faults raised by os.listdir on a source root. -/
inductive ListFault where
  | fileNotFound
  | permissionFault
deriving DecidableEq

/-- Outcome of the recursive copy loop: the CSV rows written so far, the
    file copies performed so far, and the exception (if one) that escaped. -/
structure BWalk where
  rows : List FileRow
  copies : List (Path × Path)
  err : Option CopyFault
deriving DecidableEq

/-- The body of copy_directory_with_metadata (bet_extractor.py): iterate the
    listing in order; a directory recurses with both paths extended by the
    same segment; a file is copied with shutil.copy2 (whose raise propagates,
    aborting the remaining entries), then source ctime/atime and its MD5 are
    captured and one row is written. -/
def processItems : List FsNode → Path → Path → BWalk
  | [], _, _ => { rows := [], copies := [], err := none }
  | .dir nm cs :: rest, src, dst =>
      let r := processItems cs (src ++ [nm]) (dst ++ [nm])
      match r.err with
      | some e => { rows := r.rows, copies := r.copies, err := some e }
      | none =>
          let r2 := processItems rest src dst
          { rows := r.rows ++ r2.rows, copies := r.copies ++ r2.copies, err := r2.err }
  | .file nm info :: rest, src, dst =>
      if info.copyOk then
        let row : FileRow :=
          { name := nm, srcPath := src ++ [nm], ctime := info.ctime,
            atime := info.atime, digest := digestOf info }
        let r2 := processItems rest src dst
        { rows := row :: r2.rows
          copies := (src ++ [nm], dst ++ [nm]) :: r2.copies
          err := r2.err }
      else { rows := [], copies := [], err := some .copyRaised }

/-- copy_directory_with_metadata: os.listdir(src) may raise when the source
    root is absent or unreadable; otherwise the per-entry loop runs. -/
def copy_directory_with_metadata (listing : Except ListFault (List FsNode))
    (src dst : Path) : BWalk :=
  match listing with
  | .error _ => { rows := [], copies := [], err := some .listdirRaised }
  | .ok items => processItems items src dst

/-- All files of a tree have a succeeding shutil.copy2. -/
def allCopyOk : List FsNode → Bool
  | [] => true
  | .dir _ cs :: rest => allCopyOk cs && allCopyOk rest
  | .file _ info :: rest => info.copyOk && allCopyOk rest

/-- The files of a source tree in discovery order, with their directory path
    relative to the root (the reference flattening of the recursive walk). -/
def betFilesRel : List FsNode → List (Path × String × FInfo)
  | [] => []
  | .dir nm cs :: rest => (betFilesRel cs).map (fun e => (nm :: e.1, e.2)) ++ betFilesRel rest
  | .file nm info :: rest => ([], nm, info) :: betFilesRel rest

/-- The row copy_directory_with_metadata writes for a discovered file. -/
def betRowOf (src : Path) (e : Path × String × FInfo) : FileRow :=
  { name := e.2.1, srcPath := src ++ e.1 ++ [e.2.1], ctime := e.2.2.ctime,
    atime := e.2.2.atime, digest := digestOf e.2.2 }

structure BetResult where
  manifest : List (List String)
  rows : List FileRow
  copies : List (Path × Path)
  warned : Bool
  errored : Bool
deriving DecidableEq

def betLogsSrc : Path := ["C:", "BET", "Logs"]

/-- copy_bet_files (bet_extractor.py): opens the manifest fresh, writes the
    header row, runs the recursive copy of C:\BET\Logs into target\Logs; any
    exception (including FileNotFoundError from a missing source root) is
    caught by the catch-all and logged as an error — no warning, no re-raise.
    The manifest holds the header plus the rows written before any raise. -/
def copy_bet_files (srcListing : Except ListFault (List FsNode)) (target : Path) : BetResult :=
  let r := copy_directory_with_metadata srcListing betLogsSrc (target ++ ["Logs"])
  { manifest := manifestHeader :: r.rows.map serializeRow
    rows := r.rows
    copies := r.copies
    warned := false
    errored := r.err.isSome }

theorem processItems_allCopyOk :
    ∀ (items : List FsNode) (src dst : Path), allCopyOk items = true →
    processItems items src dst
      = { rows := (betFilesRel items).map (betRowOf src)
          copies := (betFilesRel items).map
            (fun e => (src ++ e.1 ++ [e.2.1], dst ++ e.1 ++ [e.2.1]))
          err := none } := by
  intro items src dst h
  induction items, src, dst using processItems.induct with
  | case1 src dst => simp [processItems, betFilesRel]
  | case2 =>
      rename_i nm cs rest src dst r e hx ih1
      simp only [allCopyOk, Bool.and_eq_true] at h
      have hcs := ih1 h.1
      have hx2 : (processItems cs (src ++ [nm]) (dst ++ [nm])).err = some e := hx
      rw [hcs] at hx2
      simp at hx2
  | case3 =>
      rename_i nm cs rest src dst r hx ih2 ih1
      simp only [allCopyOk, Bool.and_eq_true] at h
      have hcs := ih2 h.1
      have hrest := ih1 h.2
      simp only [processItems, hcs, hrest, betFilesRel, List.map_append, List.map_map]
      refine congrArg₂ (fun a b => BWalk.mk a b none) ?_ ?_ <;>
      · refine congrArg₂ (· ++ ·) (List.map_congr_left ?_) rfl
        intro e he
        simp [betRowOf, Function.comp, List.append_assoc]
  | case4 =>
      rename_i nm info rest src dst hok ih1
      simp only [allCopyOk, Bool.and_eq_true] at h
      have hrest := ih1 h.2
      simp only [processItems, hok, if_true, hrest, betFilesRel, List.map_cons]
      simp [betRowOf]
  | case5 =>
      rename_i nm info rest src dst hok
      simp only [allCopyOk, Bool.and_eq_true] at h
      exact absurd h.1 hok

theorem digestOf_isSome (i : FInfo) : (digestOf i).isSome = i.content.isSome := by
  unfold digestOf
  cases hc : i.content <;> simp [calculate_md5]

/-- C1 counterexample: a file whose shutil.copy2 raises gets no FileRecord at
all, and the loop aborts instead of continuing — with a failing copy of
crash.log followed by a healthy ok.log, zero rows are emitted and the
exception escapes the directory loop. -/
theorem c1_counterexample :
    (processItems
        [.file "crash.log" ⟨some [1], false, 5, 6⟩,
         .file "ok.log" ⟨some [2], true, 7, 8⟩]
        ["C:", "BET", "Logs"] ["T", "Logs"]).rows = []
  ∧ (processItems
        [.file "crash.log" ⟨some [1], false, 5, 6⟩,
         .file "ok.log" ⟨some [2], true, 7, 8⟩]
        ["C:", "BET", "Logs"] ["T", "Logs"]).err = some .copyRaised := by
  constructor <;> simp [processItems]

/-- C1 (amended): when the digest fails but the physical copy succeeds, a
FileRecord is still appended for every file, with the Unavailable digest
sentinel (None) exactly for the files whose content could not be read, and
collection continues through the whole tree; but when shutil.copy2 itself
raises, no row is emitted for that file and the exception aborts the
enclosing loop (it is caught only at the task boundary). -/
theorem c1_record_per_attempted_file (items : List FsNode) (src dst : Path)
    (nm : String) (info : FInfo) (rest : List FsNode)
    (hall : allCopyOk items = true) (hfail : info.copyOk = false) :
    processItems items src dst
      = { rows := (betFilesRel items).map (betRowOf src)
          copies := (betFilesRel items).map
            (fun e => (src ++ e.1 ++ [e.2.1], dst ++ e.1 ++ [e.2.1]))
          err := none }
  ∧ processItems (.file nm info :: rest) src dst
      = { rows := [], copies := [], err := some .copyRaised }
  ∧ (∀ i : FInfo, (digestOf i).isSome = i.content.isSome) :=
  ⟨processItems_allCopyOk items src dst hall,
   by simp [processItems, hfail],
   digestOf_isSome⟩

theorem c1_witness :
    processItems [.file "a.txt" ⟨none, true, 1, 2⟩] ["s"] ["d"]
      = { rows := [{ name := "a.txt", srcPath := ["s", "a.txt"], ctime := 1,
                     atime := 2, digest := none }]
          copies := [(["s", "a.txt"], ["d", "a.txt"])]
          err := none } := by
  have h := (c1_record_per_attempted_file [.file "a.txt" ⟨none, true, 1, 2⟩]
    ["s"] ["d"] "x" ⟨none, false, 0, 0⟩ [] (by simp [allCopyOk]) rfl).1
  rw [h]
  simp [betFilesRel, betRowOf, digestOf, calculate_md5]

/- ===================== os.walk model ===================== -/

mutual

/-- One os.walk visit entry: the directory path being visited, a file name in
    it, and that file's facts. os.walk is top-down: the files of the current
    directory come first, then each subdirectory is walked in listing order. -/
def os_walk (root : Path) (items : List FsNode) : List (Path × String × FInfo) :=
  (items.filterMap (fun n => match n with
    | .file nm info => some (root, nm, info)
    | .dir _ _ => none)) ++ walkSubdirs root items

def walkSubdirs (root : Path) : List FsNode → List (Path × String × FInfo)
  | [] => []
  | .dir nm cs :: rest => os_walk (root ++ [nm]) cs ++ walkSubdirs root rest
  | .file _ _ :: rest => walkSubdirs root rest

end

theorem mem_filesPart_root {root : Path} {items : List FsNode}
    {e : Path × String × FInfo}
    (hf : e ∈ items.filterMap (fun n => match n with
      | .file nm info => some (root, nm, info)
      | .dir _ _ => none)) : e.1 = root := by
  rcases List.mem_filterMap.mp hf with ⟨n, _, hn⟩
  cases n with
  | file nm info =>
      simp only [Option.some_inj] at hn
      rw [← hn]
  | dir _ _ => simp at hn

theorem walkSubdirs_under_aux :
    ∀ (k : Nat) (l : List FsNode) (root : Path), sizeOf l ≤ k →
      ∀ e ∈ walkSubdirs root l, ∃ ext, e.1 = root ++ ext := by
  intro k
  induction k with
  | zero =>
      intro l root hl e he
      exfalso
      cases l <;> simp at hl
  | succ k ih =>
      intro l root hl e he
      match l with
      | [] => simp [walkSubdirs] at he
      | .dir nm cs :: rest =>
          have hcs : sizeOf cs ≤ k := by simp at hl; omega
          have hrest : sizeOf rest ≤ k := by simp at hl; omega
          rw [walkSubdirs, List.mem_append] at he
          rcases he with hw | hs
          · rw [os_walk, List.mem_append] at hw
            rcases hw with hf | hsub
            · exact ⟨[nm], by rw [mem_filesPart_root hf]⟩
            · rcases ih cs (root ++ [nm]) hcs e hsub with ⟨ext, hext⟩
              exact ⟨nm :: ext, by rw [hext]; simp [List.append_assoc]⟩
          · exact ih rest root hrest e hs
      | .file nm i :: rest =>
          have hrest : sizeOf rest ≤ k := by simp at hl; omega
          rw [walkSubdirs] at he
          exact ih rest root hrest e he

/-- Every directory os.walk visits lies under the walked root. -/
theorem os_walk_under_root (items : List FsNode) (root : Path)
    (e : Path × String × FInfo) (he : e ∈ os_walk root items) :
    ∃ ext, e.1 = root ++ ext := by
  rw [os_walk, List.mem_append] at he
  rcases he with hf | hs
  · exact ⟨[], by rw [mem_filesPart_root hf, List.append_nil]⟩
  · exact walkSubdirs_under_aux (sizeOf items) items root (Nat.le_refl _) e hs

/- ===================== teamviewer_extractor ===================== -/

/-- Python str.endswith: the candidate suffix's characters end the string. -/
def endswith (s post : String) : Bool := List.isSuffixOf post.data s.data

/-- The suffix filter of copy_files_from_path. -/
def tvMatch (nm : String) : Bool := endswith nm ".txt" || endswith nm ".log"

structure TVAcc where
  files_copied : Nat
  rows : List FileRow
  copies : List (Path × Path)
deriving DecidableEq

/-- The walk loop of copy_files_from_path (teamviewer_extractor.py): for each
    walked file whose name ends in .txt or .log, copy it to
    target_dir/relpath(source, path), record one row, and bump the counter;
    all other files are skipped entirely. -/
def tvLoop (path target : Path) : List (Path × String × FInfo) → TVAcc → TVAcc
  | [], acc => acc
  | (root, nm, info) :: rest, acc =>
      if tvMatch nm then
        let source_file := root ++ [nm]
        let target_file := target ++ relpath source_file path
        tvLoop path target rest
          { files_copied := acc.files_copied + 1
            rows := acc.rows ++ [{ name := nm, srcPath := source_file,
                                   ctime := info.ctime, atime := info.atime,
                                   digest := digestOf info }]
            copies := acc.copies ++ [(source_file, target_file)] }
      else tvLoop path target rest acc

structure TVResult where
  files_copied : Nat
  rows : List FileRow
  copies : List (Path × Path)
  warned : Bool
deriving DecidableEq

/-- copy_files_from_path: a missing search root warns and returns 0 without
    touching anything; otherwise the walk loop runs over os.walk(path). -/
def copy_files_from_path (listing : Option (List FsNode)) (path target : Path) : TVResult :=
  match listing with
  | none => { files_copied := 0, rows := [], copies := [], warned := true }
  | some items =>
      let acc := tvLoop path target (os_walk path items) ⟨0, [], []⟩
      { files_copied := acc.files_copied, rows := acc.rows,
        copies := acc.copies, warned := false }

def tvRowOf (e : Path × String × FInfo) : FileRow :=
  { name := e.2.1, srcPath := e.1 ++ [e.2.1], ctime := e.2.2.ctime,
    atime := e.2.2.atime, digest := digestOf e.2.2 }

def tvCopyOf (path target : Path) (e : Path × String × FInfo) : Path × Path :=
  (e.1 ++ [e.2.1], target ++ relpath (e.1 ++ [e.2.1]) path)

theorem tvLoop_spec (path target : Path) :
    ∀ (ws : List (Path × String × FInfo)) (acc : TVAcc),
      tvLoop path target ws acc
        = { files_copied := acc.files_copied + (ws.filter (fun e => tvMatch e.2.1)).length
            rows := acc.rows ++ (ws.filter (fun e => tvMatch e.2.1)).map tvRowOf
            copies := acc.copies ++ (ws.filter (fun e => tvMatch e.2.1)).map (tvCopyOf path target) } := by
  intro ws
  induction ws with
  | nil => intro acc; simp [tvLoop]
  | cons e rest ih =>
      intro acc
      match e with
      | (root, nm, info) =>
        by_cases hm : tvMatch nm
        · rw [tvLoop]
          simp only [hm, if_true, ih]
          simp [List.filter_cons, hm, tvRowOf, tvCopyOf, List.append_assoc]
          omega
        · rw [tvLoop]
          simp only [hm, if_false, ih]
          simp [List.filter_cons, hm]

theorem copy_files_from_path_eq (items : List FsNode) (path target : Path) :
    copy_files_from_path (some items) path target
      = { files_copied := ((os_walk path items).filter (fun e => tvMatch e.2.1)).length
          rows := ((os_walk path items).filter (fun e => tvMatch e.2.1)).map tvRowOf
          copies := ((os_walk path items).filter (fun e => tvMatch e.2.1)).map (tvCopyOf path target)
          warned := false } := by
  rw [copy_files_from_path, tvLoop_spec]
  simp

/-- C9: the TeamViewer collector copies and logs exactly the walked files
whose name ends in .txt or .log — every other file is neither copied nor
given a manifest row — and the count it returns equals the number of files
copied (= the number of rows = the number of matching files). -/
theorem c9_teamviewer_filter (items : List FsNode) (path target : Path) :
    copy_files_from_path (some items) path target
      = { files_copied := ((os_walk path items).filter (fun e => tvMatch e.2.1)).length
          rows := ((os_walk path items).filter (fun e => tvMatch e.2.1)).map tvRowOf
          copies := ((os_walk path items).filter (fun e => tvMatch e.2.1)).map (tvCopyOf path target)
          warned := false }
  ∧ (copy_files_from_path (some items) path target).files_copied
      = (copy_files_from_path (some items) path target).copies.length
  ∧ (copy_files_from_path (some items) path target).files_copied
      = (copy_files_from_path (some items) path target).rows.length := by
  have h := copy_files_from_path_eq items path target
  refine ⟨h, ?_, ?_⟩ <;> rw [h] <;> simp

/- ===================== prefetch_extractor ===================== -/

structure PrefetchResult where
  manifest : Option (List (List String))
  rows : List FileRow
  copies : List (Path × Path)
  warned : Bool
deriving DecidableEq

/-- The row and copy performed per walked prefetch file: the target path is
    target_dir/Windows/relpath(source_file, dirname(prefetch_dir)). -/
def prefetchRowOf (e : Path × String × FInfo) : FileRow :=
  { name := e.2.1, srcPath := e.1 ++ [e.2.1], ctime := e.2.2.ctime,
    atime := e.2.2.atime, digest := digestOf e.2.2 }

def prefetchCopyOf (prefetch_dir target : Path) (e : Path × String × FInfo) : Path × Path :=
  let source_file := e.1 ++ [e.2.1]
  (source_file, target ++ ["Windows"] ++ relpath source_file prefetch_dir.dropLast)

/-- copy_prefetch_files (prefetch_extractor.py): prefetch_dir is
    WINDIR/Prefetch; when it does not exist the function warns and returns
    with no manifest and no rows; otherwise it creates the manifest with the
    header row and, per walked file, copies to
    target/Windows/relpath(source, dirname(prefetch_dir)) and writes a row. -/
def copy_prefetch_files (windir : Path) (prefetchItems : Option (List FsNode))
    (target : Path) : PrefetchResult :=
  let prefetch_dir := windir ++ ["Prefetch"]
  match prefetchItems with
  | none => { manifest := none, rows := [], copies := [], warned := true }
  | some items =>
      let ws := os_walk prefetch_dir items
      let rows := ws.map prefetchRowOf
      let copies := ws.map (prefetchCopyOf prefetch_dir target)
      { manifest := some (manifestHeader :: rows.map serializeRow)
        rows := rows
        copies := copies
        warned := false }

/-- C3 counterexample: for the prefetch task (source root WINDIR/Prefetch,
destination root the target directory), a file a.pf directly in the prefetch
directory is copied to target/Windows/Prefetch/a.pf, whose path relative to
the destination root differs from the file's path relative to the source
root: the destination tree does not mirror the source root. -/
theorem c3_counterexample :
    (copy_prefetch_files ["C:", "Windows"]
        (some [.file "a.pf" ⟨some [1], true, 3, 4⟩]) ["D:", "out"]).copies
      = [(["C:", "Windows", "Prefetch", "a.pf"],
          ["D:", "out", "Windows", "Prefetch", "a.pf"])]
  ∧ relpath ["D:", "out", "Windows", "Prefetch", "a.pf"] ["D:", "out"]
      ≠ relpath ["C:", "Windows", "Prefetch", "a.pf"] ["C:", "Windows", "Prefetch"] := by
  constructor
  · rw [copy_prefetch_files]
    simp [os_walk, walkSubdirs, prefetchCopyOf, relpath]
  · decide

/-- C3 (amended): for the TeamViewer and BET collection tasks every copied
file's relative path from the destination root equals its relative path from
the source root; the prefetch task instead prefixes the mirror with
Windows/Prefetch: each source file prefetch_dir/rel is copied to
target/Windows/Prefetch/rel, so its path relative to the target root is
Windows/Prefetch/rel rather than rel. -/
theorem c3_destination_mirror (items bitems : List FsNode)
    (path target src dst windir ptarget : Path) (pitems : List FsNode) :
    (∀ p ∈ (copy_files_from_path (some items) path target).copies,
       ∃ rel, p.1 = path ++ rel ∧ p.2 = target ++ rel)
  ∧ (∀ p ∈ (processItems bitems src dst).copies,
       ∃ rel, p.1 = src ++ rel ∧ p.2 = dst ++ rel)
  ∧ (∀ p ∈ (copy_prefetch_files windir (some pitems) ptarget).copies,
       ∃ rel, p.1 = (windir ++ ["Prefetch"]) ++ rel
            ∧ p.2 = (ptarget ++ ["Windows", "Prefetch"]) ++ rel) := by
  refine ⟨?_, ?_, ?_⟩
  · intro p hp
    rw [copy_files_from_path_eq items path target] at hp
    simp only [List.mem_map] at hp
    rcases hp with ⟨e, he, rfl⟩
    have hw := os_walk_under_root items path e (List.mem_of_mem_filter he)
    rcases hw with ⟨ext, hext⟩
    refine ⟨ext ++ [e.2.1], ?_, ?_⟩
    · simp [tvCopyOf, hext, List.append_assoc]
    · simp [tvCopyOf, hext, relpath, List.append_assoc]
  · intro p hp
    induction bitems, src, dst using processItems.induct with
    | case1 src dst => simp [processItems] at hp
    | case2 =>
        rename_i nm cs rest src dst r e hx ih1
        have hx2 : (processItems cs (src ++ [nm]) (dst ++ [nm])).err = some e := hx
        rw [processItems] at hp
        simp only [hx2] at hp
        rcases ih1 hp with ⟨rel, h1, h2⟩
        exact ⟨nm :: rel, by rw [h1]; simp [List.append_assoc],
               by rw [h2]; simp [List.append_assoc]⟩
    | case3 =>
        rename_i nm cs rest src dst r hx ih2 ih1
        have hx2 : (processItems cs (src ++ [nm]) (dst ++ [nm])).err = none := hx
        rw [processItems] at hp
        simp only [hx2, List.mem_append] at hp
        rcases hp with hp | hp
        · rcases ih2 hp with ⟨rel, h1, h2⟩
          exact ⟨nm :: rel, by rw [h1]; simp [List.append_assoc],
                 by rw [h2]; simp [List.append_assoc]⟩
        · exact ih1 hp
    | case4 =>
        rename_i nm info rest src dst hok ih1
        rw [processItems, if_pos hok] at hp
        simp only [List.mem_cons] at hp
        rcases hp with rfl | hp
        · exact ⟨[nm], rfl, rfl⟩
        · exact ih1 hp
    | case5 =>
        rename_i nm info rest src dst hok
        rw [processItems, if_neg hok] at hp
        simp at hp
  · intro p hp
    rw [copy_prefetch_files] at hp
    simp only [List.mem_map] at hp
    rcases hp with ⟨e, he, rfl⟩
    have hw := os_walk_under_root pitems (windir ++ ["Prefetch"]) e he
    rcases hw with ⟨ext, hext⟩
    refine ⟨ext ++ [e.2.1], ?_, ?_⟩
    · simp [prefetchCopyOf, hext, List.append_assoc]
    · have hdl : (windir ++ ["Prefetch"]).dropLast = windir := by
        simp
      simp [prefetchCopyOf, hext, hdl, relpath, List.append_assoc]

theorem c3_witness :
    (∃ rel, (["C:", "Program Files (x86)", "TeamViewer", "log1.log"] : Path)
           = ["C:", "Program Files (x86)", "TeamViewer"] ++ rel
         ∧ (["T", "log1.log"] : Path) = ["T"] ++ rel) := by
  have h := (c3_destination_mirror
    [.file "log1.log" ⟨some [], true, 0, 0⟩] []
    ["C:", "Program Files (x86)", "TeamViewer"] ["T"] [] [] [] [] []).1
  refine h (["C:", "Program Files (x86)", "TeamViewer", "log1.log"], ["T", "log1.log"]) ?_
  rw [copy_files_from_path_eq [.file "log1.log" ⟨some [], true, 0, 0⟩]
    ["C:", "Program Files (x86)", "TeamViewer"] ["T"]]
  simp only [os_walk, walkSubdirs, List.filterMap, List.append_nil]
  have hm : tvMatch "log1.log" = true := by decide
  simp [hm, tvCopyOf, relpath]

/- ===================== C4 / C5 ===================== -/

/-- C4 counterexample: the BET collector has no existence check for its
source root; on a missing C:\BET\Logs the FileNotFoundError from os.listdir
lands in the catch-all and is logged as an error — no warning is emitted,
contradicting the claim that absence always yields a warning and is never
treated as an error. -/
theorem c4_counterexample :
    (copy_bet_files (.error .fileNotFound) ["T"]).warned = false
  ∧ (copy_bet_files (.error .fileNotFound) ["T"]).errored = true := ⟨rfl, rfl⟩

/-- C4 (amended): a missing source root yields zero FileRecords and never
raises past the task boundary in all three collectors; the prefetch and
TeamViewer collectors warn, but the BET collector records the absence as a
caught error (its manifest holds only the header), not a warning. -/
theorem c4_missing_root (windir target path tvtarget btarget : Path) :
    copy_prefetch_files windir none target
      = { manifest := none, rows := [], copies := [], warned := true }
  ∧ copy_files_from_path none path tvtarget
      = { files_copied := 0, rows := [], copies := [], warned := true }
  ∧ (copy_bet_files (.error .fileNotFound) btarget).rows = []
  ∧ (copy_bet_files (.error .fileNotFound) btarget).errored = true
  ∧ (copy_bet_files (.error .fileNotFound) btarget).warned = false
  ∧ (copy_bet_files (.error .fileNotFound) btarget).manifest = [manifestHeader] :=
  ⟨rfl, rfl, rfl, rfl, rfl, rfl⟩

/-- C5 counterexample: the first manifest row is not the claimed header — its
fifth field is "MD5 Checksum", not "Digest". -/
theorem c5_counterexample :
    (copy_bet_files (.ok []) ["T"]).manifest.head?
      ≠ some ["File Name", "File Path", "Creation Date", "Last Access Date", "Digest"] := by
  have h : (copy_bet_files (.ok []) ["T"]).manifest = [manifestHeader] := by
    simp [copy_bet_files, copy_directory_with_metadata, processItems]
  rw [h]
  decide

/-- C5 (amended): each manifest is built fresh per task (csv opened with mode
w, modeled as constructing the full content anew); its first row is exactly
the header File Name, File Path, Creation Date, Last Access Date, MD5
Checksum — the digest column is titled "MD5 Checksum", not "Digest"; the
header precedes every data row; and the data rows are exactly the discovered
files in discovery order, with no sorting and no deduplication. -/
theorem c5_manifest_layout (srcListing : Except ListFault (List FsNode))
    (target ptarget windir : Path) (items pitems : List FsNode)
    (hall : allCopyOk items = true) :
    (copy_bet_files srcListing target).manifest.head? = some manifestHeader
  ∧ (copy_bet_files srcListing target).manifest.tail
      = (copy_bet_files srcListing target).rows.map serializeRow
  ∧ (copy_bet_files (.ok items) target).rows
      = (betFilesRel items).map (betRowOf betLogsSrc)
  ∧ (copy_prefetch_files windir (some pitems) ptarget).manifest
      = some (manifestHeader ::
          ((os_walk (windir ++ ["Prefetch"]) pitems).map prefetchRowOf).map serializeRow)
  ∧ manifestHeader.getD 4 "" = "MD5 Checksum" := by
  refine ⟨rfl, rfl, ?_, rfl, rfl⟩
  have h := processItems_allCopyOk items betLogsSrc (target ++ ["Logs"]) hall
  simp [copy_bet_files, copy_directory_with_metadata, h]

theorem c5_witness :
    (copy_bet_files (.ok [.file "b.log" ⟨some [1], true, 2, 3⟩]) ["T"]).rows
      = [{ name := "b.log", srcPath := ["C:", "BET", "Logs", "b.log"],
           ctime := 2, atime := 3, digest := some (md5hex [1]) }] := by
  have h := (c5_manifest_layout (.ok [.file "b.log" ⟨some [1], true, 2, 3⟩]) ["T"] [] []
    [.file "b.log" ⟨some [1], true, 2, 3⟩] [] (by simp [allCopyOk])).2.2.1
  rw [h]
  simp [betFilesRel, betRowOf, betLogsSrc, digestOf, calculate_md5]
  rw [foldl_hashlib_update, List.nil_append, chunksOf_flatten 4096 (by omega)]

/- ===================== dir_tree_extractor ===================== -/

/-- The two faults tree() catches from os.listdir. -/
inductive TFault where
  | permissionDenied
  | fileNotFound
deriving DecidableEq

/-- A node of the subtree rendered by tree() : a plain file, a listable
    directory, or a directory whose os.listdir raises. A real directory
    listing has pairwise-distinct names, so position-in-sorted-order and
    contents.index agree; we model the last-entry pointer positionally. -/
inductive DTNode where
  | file (name : String)
  | dir (name : String) (children : List DTNode)
  | dirDenied (name : String) (fault : TFault)

def dtName : DTNode → String
  | .file nm => nm
  | .dir nm _ => nm
  | .dirDenied nm _ => nm

def nameLe (a b : DTNode) : Prop := dtName a ≤ dtName b

instance : DecidableRel nameLe := fun a b => inferInstanceAs (Decidable (dtName a ≤ dtName b))

instance : IsTotal DTNode nameLe := ⟨fun a b => le_total (dtName a) (dtName b)⟩

instance : IsTrans DTNode nameLe := ⟨fun _ _ _ h1 h2 => le_trans h1 h2⟩

/-- sorted(os.listdir(dir_path)) : the children in name order. -/
def sortByName (l : List DTNode) : List DTNode := l.insertionSort nameLe

mutual

def dtW : DTNode → Nat
  | .file _ => 1
  | .dirDenied _ _ => 1
  | .dir _ cs => 1 + dtWL cs

def dtWL : List DTNode → Nat
  | [] => 0
  | x :: xs => 1 + dtW x + dtWL xs

end

theorem dtWL_perm {l₁ l₂ : List DTNode} (h : l₁.Perm l₂) : dtWL l₁ = dtWL l₂ := by
  induction h with
  | nil => rfl
  | cons x _ ih => simp [dtWL, ih]
  | swap x y l => simp [dtWL]; omega
  | trans _ _ ih1 ih2 => omega

theorem dtWL_sort (l : List DTNode) : dtWL (sortByName l) = dtWL l :=
  dtWL_perm (List.perm_insertionSort nameLe l)

theorem dtW_pos (n : DTNode) : 1 ≤ dtW n := by
  cases n <;> simp [dtW]

def connector (last : Bool) : String := if last then "└── " else "├── "

def extMark (last : Bool) : String := if last then "    " else "│   "

def bracketMsg : TFault → String
  | .permissionDenied => "[Permission Denied]"
  | .fileNotFound => "[File Not Found]"

/-- The sentinel line tree() writes when os.listdir raises at a directory. -/
def faultLine (pref : String) (f : TFault) : String := pref ++ "    " ++ bracketMsg f

mutual

/-- The lines tree() (dir_tree_extractor.py) writes for one sorted-listing
    entry: its own connector line, then (for a directory) the recursive
    rendering of its sorted children with the prefix extended by one
    continuation marker, or (for an unlistable directory) the single
    sentinel line the recursive call emits before returning. -/
def renderEntry (n : DTNode) (pref : String) (last : Bool) : List String :=
  match n with
  | .file nm => [pref ++ connector last ++ nm]
  | .dir nm cs => (pref ++ connector last ++ nm) ::
      renderSiblings (sortByName cs) (pref ++ extMark last)
  | .dirDenied nm f =>
      [pref ++ connector last ++ nm, faultLine (pref ++ extMark last) f]
termination_by dtW n
decreasing_by
  rw [dtWL_sort]
  simp [dtW]

/-- The for-loop of tree() over the sorted listing: the zip with the
    last-entry pointers makes the final entry (and only it) terminal. -/
def renderSiblings (l : List DTNode) (pref : String) : List String :=
  match l with
  | [] => []
  | [x] => renderEntry x pref true
  | x :: xs => renderEntry x pref false ++ renderSiblings xs pref
termination_by dtWL l
decreasing_by
  all_goals simp [dtWL]
  all_goals omega

end

/-- tree(start_path, '') : a listing fault at the root yields the single
    sentinel line; otherwise the sorted listing is rendered. -/
def tree : Except TFault (List DTNode) → List String
  | .error f => [faultLine "" f]
  | .ok cs => renderSiblings (sortByName cs) ""

mutual

/-- Rendered entries of a subtree: one per visible node (children behind a
    denied listing are unobservable and not counted). -/
def dtSize : DTNode → Nat
  | .file _ => 1
  | .dirDenied _ _ => 1
  | .dir _ cs => 1 + dtSizeL cs

def dtSizeL : List DTNode → Nat
  | [] => 0
  | x :: xs => dtSize x + dtSizeL xs

end

mutual

/-- Number of directories in a subtree whose listing raises. -/
def dtFaults : DTNode → Nat
  | .file _ => 0
  | .dirDenied _ _ => 1
  | .dir _ cs => dtFaultsL cs

def dtFaultsL : List DTNode → Nat
  | [] => 0
  | x :: xs => dtFaults x + dtFaultsL xs

end

theorem renderSiblings_cons_cons (x y : DTNode) (ys : List DTNode) (pref : String) :
    renderSiblings (x :: y :: ys) pref
      = renderEntry x pref false ++ renderSiblings (y :: ys) pref := by
  rw [renderSiblings]
  simp

theorem dtSizeL_perm {l₁ l₂ : List DTNode} (h : l₁.Perm l₂) : dtSizeL l₁ = dtSizeL l₂ := by
  induction h with
  | nil => rfl
  | cons x _ ih => simp [dtSizeL, ih]
  | swap x y l => simp [dtSizeL]; omega
  | trans _ _ ih1 ih2 => omega

theorem dtFaultsL_perm {l₁ l₂ : List DTNode} (h : l₁.Perm l₂) : dtFaultsL l₁ = dtFaultsL l₂ := by
  induction h with
  | nil => rfl
  | cons x _ ih => simp [dtFaultsL, ih]
  | swap x y l => simp [dtFaultsL]; omega
  | trans _ _ ih1 ih2 => omega

theorem dtSizeL_sort (l : List DTNode) : dtSizeL (sortByName l) = dtSizeL l :=
  dtSizeL_perm (List.perm_insertionSort nameLe l)

theorem dtFaultsL_sort (l : List DTNode) : dtFaultsL (sortByName l) = dtFaultsL l :=
  dtFaultsL_perm (List.perm_insertionSort nameLe l)

theorem render_length_aux : ∀ k : Nat,
    (∀ n : DTNode, dtW n ≤ k → ∀ pref last,
       (renderEntry n pref last).length = dtSize n + dtFaults n)
  ∧ (∀ l : List DTNode, dtWL l ≤ k → ∀ pref,
       (renderSiblings l pref).length = dtSizeL l + dtFaultsL l) := by
  intro k
  induction k with
  | zero =>
      constructor
      · intro n hn
        have := dtW_pos n
        omega
      · intro l hl pref
        match l with
        | [] => simp [renderSiblings, dtSizeL, dtFaultsL]
        | x :: xs => simp [dtWL] at hl
  | succ k ih =>
      constructor
      · intro n hn pref last
        match n with
        | .file nm => simp [renderEntry, dtSize, dtFaults]
        | .dirDenied nm f => simp [renderEntry, dtSize, dtFaults]
        | .dir nm cs =>
            have hcs : dtWL (sortByName cs) ≤ k := by
              rw [dtWL_sort]
              simp [dtW] at hn
              omega
            rw [renderEntry]
            simp only [List.length_cons, ih.2 (sortByName cs) hcs]
            rw [dtSizeL_sort, dtFaultsL_sort]
            simp [dtSize, dtFaults]
            omega
      · intro l hl pref
        match l with
        | [] => simp [renderSiblings, dtSizeL, dtFaultsL]
        | [x] =>
            have hx : dtW x ≤ k := by simp [dtWL] at hl; omega
            rw [renderSiblings]
            rw [ih.1 x hx]
            simp [dtSizeL, dtFaultsL]
        | x :: y :: ys =>
            have hx : dtW x ≤ k := by simp [dtWL] at hl; omega
            have hys : dtWL (y :: ys) ≤ k := by
              simp [dtWL] at hl ⊢
              have := dtW_pos x
              omega
            rw [renderSiblings_cons_cons]
            simp only [List.length_append, ih.1 x hx, ih.2 (y :: ys) hys]
            simp [dtSizeL, dtFaultsL]
            omega

theorem renderEntry_length (n : DTNode) (pref : String) (last : Bool) :
    (renderEntry n pref last).length = dtSize n + dtFaults n :=
  (render_length_aux (dtW n)).1 n (Nat.le_refl _) pref last

theorem renderSiblings_length (l : List DTNode) (pref : String) :
    (renderSiblings l pref).length = dtSizeL l + dtFaultsL l :=
  (render_length_aux (dtWL l)).2 l (Nat.le_refl _) pref

theorem render_lines_aux : ∀ k : Nat,
    (∀ n : DTNode, dtW n ≤ k → ∀ pref last, ∀ line ∈ renderEntry n pref last,
       ∃ t, line = pref ++ t)
  ∧ (∀ l : List DTNode, dtWL l ≤ k → ∀ pref, ∀ line ∈ renderSiblings l pref,
       ∃ t, line = pref ++ t) := by
  intro k
  induction k with
  | zero =>
      constructor
      · intro n hn
        have := dtW_pos n
        omega
      · intro l hl pref line hline
        match l with
        | [] => simp [renderSiblings] at hline
        | x :: xs => simp [dtWL] at hl
  | succ k ih =>
      constructor
      · intro n hn pref last line hline
        match n with
        | .file nm =>
            rw [renderEntry] at hline
            simp only [List.mem_singleton] at hline
            exact ⟨connector last ++ nm, by rw [hline, String.append_assoc]⟩
        | .dirDenied nm f =>
            rw [renderEntry] at hline
            simp only [List.mem_cons, List.not_mem_nil, or_false] at hline
            rcases hline with rfl | rfl
            · exact ⟨connector last ++ nm, String.append_assoc ..⟩
            · exact ⟨extMark last ++ "    " ++ bracketMsg f, by
                simp [faultLine, String.append_assoc]⟩
        | .dir nm cs =>
            have hcs : dtWL (sortByName cs) ≤ k := by
              rw [dtWL_sort]
              simp [dtW] at hn
              omega
            rw [renderEntry] at hline
            simp only [List.mem_cons] at hline
            rcases hline with rfl | hline
            · exact ⟨connector last ++ nm, String.append_assoc ..⟩
            · rcases ih.2 (sortByName cs) hcs (pref ++ extMark last) line hline with ⟨t, rfl⟩
              exact ⟨extMark last ++ t, String.append_assoc ..⟩
      · intro l hl pref line hline
        match l with
        | [] => simp [renderSiblings] at hline
        | [x] =>
            have hx : dtW x ≤ k := by simp [dtWL] at hl; omega
            rw [renderSiblings] at hline
            exact ih.1 x hx pref true line hline
        | x :: y :: ys =>
            have hx : dtW x ≤ k := by simp [dtWL] at hl; omega
            have hys : dtWL (y :: ys) ≤ k := by
              simp [dtWL] at hl ⊢
              have := dtW_pos x
              omega
            rw [renderSiblings_cons_cons, List.mem_append] at hline
            rcases hline with hline | hline
            · exact ih.1 x hx pref false line hline
            · exact ih.2 (y :: ys) hys pref line hline

theorem renderSiblings_lines (l : List DTNode) (pref : String) :
    ∀ line ∈ renderSiblings l pref, ∃ t, line = pref ++ t :=
  (render_lines_aux (dtWL l)).2 l (Nat.le_refl _) pref

theorem renderSiblings_enumFrom : ∀ (l : List DTNode) (pref : String) (i : Nat),
    renderSiblings l pref
      = (List.enumFrom i l).flatMap
          (fun e => renderEntry e.2 pref (decide (e.1 + 1 = i + l.length))) := by
  intro l
  induction l with
  | nil => intro pref i; simp [renderSiblings]
  | cons x xs ih =>
      intro pref i
      cases xs with
      | nil =>
          rw [renderSiblings]
          simp [List.enumFrom]
      | cons y ys =>
          have harith : i + 1 + (y :: ys).length = i + (x :: y :: ys).length := by
            simp only [List.length_cons]
            omega
          have hd : (decide (i + 1 = i + (x :: y :: ys).length)) = false := by
            simp only [List.length_cons, decide_eq_false_iff_not]
            omega
          calc renderSiblings (x :: y :: ys) pref
              = renderEntry x pref false ++ renderSiblings (y :: ys) pref :=
                renderSiblings_cons_cons x y ys pref
            _ = renderEntry x pref (decide (i + 1 = i + (x :: y :: ys).length))
                  ++ (List.enumFrom (i + 1) (y :: ys)).flatMap
                      (fun e => renderEntry e.2 pref
                        (decide (e.1 + 1 = i + 1 + (y :: ys).length))) := by
                rw [hd, ih pref (i + 1)]
            _ = renderEntry x pref (decide (i + 1 = i + (x :: y :: ys).length))
                  ++ (List.enumFrom (i + 1) (y :: ys)).flatMap
                      (fun e => renderEntry e.2 pref
                        (decide (e.1 + 1 = i + (x :: y :: ys).length))) := by
                simp only [harith]
            _ = (List.enumFrom i (x :: y :: ys)).flatMap
                  (fun e => renderEntry e.2 pref
                    (decide (e.1 + 1 = i + (x :: y :: ys).length))) := by
                simp only [List.enumFrom_cons, List.flatMap_cons]

/-- C7: the Tree Renderer lists each directory's entries in name-sorted order
(the rendered listing is a sorted permutation of the children); each entry
contributes exactly one connector line at its level, with glyph └──  for the
positionally last entry and ├──  for every earlier one; and every deeper line
of an entry's subtree carries this level's continuation marker (│    or four
spaces), hence one marker per ancestor level. -/
theorem c7_tree_sorted_glyphs (cs : List DTNode) (pref : String) :
    ((sortByName cs).map dtName).Sorted (· ≤ ·)
  ∧ (sortByName cs).Perm cs
  ∧ tree (.ok cs) = renderSiblings (sortByName cs) ""
  ∧ (∀ (l : List DTNode) (p : String) (i : Nat),
       renderSiblings l p
         = (List.enumFrom i l).flatMap
             (fun e => renderEntry e.2 p (decide (e.1 + 1 = i + l.length))))
  ∧ (∀ (n : DTNode) (last : Bool),
       (renderEntry n pref last).head? = some (pref ++ connector last ++ dtName n))
  ∧ (∀ (n : DTNode) (last : Bool), ∀ line ∈ (renderEntry n pref last).tail,
       ∃ t, line = (pref ++ extMark last) ++ t) := by
  refine ⟨(List.pairwise_map).mpr (List.sorted_insertionSort nameLe cs),
    List.perm_insertionSort nameLe cs, rfl, renderSiblings_enumFrom, ?_, ?_⟩
  · intro n last
    cases n <;> rw [renderEntry] <;> rfl
  · intro n last line hline
    cases n with
    | file nm =>
        rw [renderEntry] at hline
        simp at hline
    | dir nm cs' =>
        rw [renderEntry] at hline
        simp only [List.tail_cons] at hline
        exact renderSiblings_lines _ _ line hline
    | dirDenied nm f =>
        rw [renderEntry] at hline
        simp only [List.tail_cons, List.mem_singleton] at hline
        subst hline
        exact ⟨"    " ++ bracketMsg f, by simp [faultLine, String.append_assoc]⟩

theorem c7_witness :
    ∃ t, (("" ++ extMark false) ++ connector true ++ "inner.txt")
        = ("" ++ extMark false) ++ t := by
  have hr : renderEntry (DTNode.dir "sub" [DTNode.file "inner.txt"]) "" false
      = ["" ++ connector false ++ "sub",
         ("" ++ extMark false) ++ connector true ++ "inner.txt"] := by
    rw [renderEntry]
    congr 1
    rw [show sortByName [DTNode.file "inner.txt"] = [DTNode.file "inner.txt"] from rfl]
    rw [renderSiblings, renderEntry]
  apply (c7_tree_sorted_glyphs [] "").2.2.2.2.2
    (DTNode.dir "sub" [DTNode.file "inner.txt"]) false
  rw [hr]
  simp

/-- C8: a directory whose listing raises contributes exactly its own entry
line plus one sentinel line carrying the bracketed reason at the child
position, after which rendering continues with the next sibling; a fault at
the root produces the single sentinel line; and the traversal never aborts:
the output has exactly one line per visible entry plus one sentinel line per
faulted directory. -/
theorem c8_tree_fault_sentinel (nm : String) (f : TFault) (pref : String)
    (last : Bool) (xs : List DTNode) (n : DTNode) :
    renderEntry (.dirDenied nm f) pref last
      = [pref ++ connector last ++ nm, faultLine (pref ++ extMark last) f]
  ∧ tree (.error f) = [faultLine "" f]
  ∧ (xs ≠ [] → renderSiblings (.dirDenied nm f :: xs) pref
      = renderEntry (.dirDenied nm f) pref false ++ renderSiblings xs pref)
  ∧ (renderEntry n pref last).length = dtSize n + dtFaults n := by
  refine ⟨by rw [renderEntry], rfl, ?_, renderEntry_length n pref last⟩
  intro hxs
  match xs, hxs with
  | y :: ys, _ => exact renderSiblings_cons_cons _ y ys pref

theorem c8_witness :
    renderSiblings [DTNode.dirDenied "locked" .permissionDenied, DTNode.file "z.txt"] ""
      = renderEntry (DTNode.dirDenied "locked" .permissionDenied) "" false
          ++ renderSiblings [DTNode.file "z.txt"] "" :=
  (c8_tree_fault_sentinel "locked" .permissionDenied "" false
    [DTNode.file "z.txt"] (DTNode.file "z")).2.2.1 (by simp)

end RapidExtractor
